import Mathlib

/-!
# SystemMetricsTracker: a shallow embedding of `main.c`

The C functions of `src/main.c` are rendered as pure Lean functions.

* `unsigned long long` values are natural numbers below `2 ^ 64`; every C addition,
  subtraction and multiplication on them is reduced modulo `2 ^ 64` explicitly.
* `double` values are rationals (`ℚ`). The percentages and rates are computed in exact
  arithmetic; the one place where the code can divide by a zero `double` uses the type `Dbl`,
  which adds a single non-finite value (IEEE `inf`/`nan`); the subtraction in
  `compare_processes_cpu` is rounded to the nearest `double` before its conversion to `int`.
* A write past the end of a C array is undefined behaviour; the functions that can perform
  one return an `Option`, and `none` stands for it.
* What a function prints with `mvwprintw` is returned as a value; what it reads from the
  kernel files is passed in as an argument.
-/

namespace SystemMetrics

/-! ## Machine arithmetic -/

/-- The modulus of `unsigned long long` arithmetic. -/
def U64 : Nat := 2 ^ 64

/-- C subtraction `a - b` on `unsigned long long`: the difference modulo `2 ^ 64`. -/
def usub (a b : Nat) : Nat := (a % U64 + U64 - b % U64) % U64

/-- C addition `a + b` on `unsigned long long`. -/
def uadd (a b : Nat) : Nat := (a + b) % U64

/-! ## CPU usage (`print_cpu_usage`, main.c lines 89-116) -/

/-- The struct `CPUStats`: seven `unsigned long long` counters. -/
structure CPUStats where
  user : Nat
  nice : Nat
  system : Nat
  idle : Nat
  iowait : Nat
  irq : Nat
  softirq : Nat
deriving DecidableEq, Repr

/-- Every field fits the C type `unsigned long long`. -/
def CPUStats.valid (s : CPUStats) : Prop :=
  s.user < U64 ∧ s.nice < U64 ∧ s.system < U64 ∧ s.idle < U64 ∧
  s.iowait < U64 ∧ s.irq < U64 ∧ s.softirq < U64

instance (s : CPUStats) : Decidable s.valid := by
  unfold CPUStats.valid; infer_instance

/-- The test of line 92: some counter of the snapshot is non-zero. -/
def CPUStats.nonzero (s : CPUStats) : Prop :=
  s.user ≠ 0 ∨ s.nice ≠ 0 ∨ s.system ≠ 0 ∨ s.idle ≠ 0 ∨ s.iowait ≠ 0 ∨ s.irq ≠ 0 ∨ s.softirq ≠ 0

instance (s : CPUStats) : Decidable s.nonzero := by
  unfold CPUStats.nonzero; infer_instance

/-- The sum of lines 93 and 94, `user + nice + system + idle + iowait + irq + softirq`,
computed in `unsigned long long`. -/
def total_ticks (s : CPUStats) : Nat :=
  (s.user + s.nice + s.system + s.idle + s.iowait + s.irq + s.softirq) % U64

/-- The variable `total_diff` of line 95: `current_total - prev_total` in `unsigned long long`. -/
def total_diff (prev current : CPUStats) : Nat :=
  usub (total_ticks current) (total_ticks prev)

/-- The variable `idle_diff` of line 96. -/
def idle_diff (prev current : CPUStats) : Nat :=
  usub current.idle prev.idle

/-- What `print_cpu_usage` writes into its window. -/
inductive CpuLine where
  /-- Lines 100-108: the overall usage and the six category percentages, in the order the
  code prints them (user, system, nice, iowait, irq, softirq). -/
  | usage (cpu user system nice iowait irq softirq : ℚ)
  /-- Line 110: `CPU Usage: N/A`. -/
  | na
  /-- Line 113: `CPU Usage: ` with no value. -/
  | blank
deriving DecidableEq

/-- The overall usage percentage shown on a line, when the line shows one. -/
def CpuLine.overall : CpuLine → Option ℚ
  | CpuLine.usage cpu _ _ _ _ _ _ => some cpu
  | CpuLine.na => none
  | CpuLine.blank => none

/-- Lines 92-114 of `print_cpu_usage`: the text chosen for a previous and a current snapshot. -/
def cpu_report (prev current : CPUStats) : CpuLine :=
  if prev.nonzero then
    let td := total_diff prev current
    if 0 < td then
      CpuLine.usage
        (100 * (1 - (idle_diff prev current : ℚ) / (td : ℚ)))
        (100 * (usub current.user prev.user : ℚ) / (td : ℚ))
        (100 * (usub current.system prev.system : ℚ) / (td : ℚ))
        (100 * (usub current.nice prev.nice : ℚ) / (td : ℚ))
        (100 * (usub current.iowait prev.iowait : ℚ) / (td : ℚ))
        (100 * (usub current.irq prev.irq : ℚ) / (td : ℚ))
        (100 * (usub current.softirq prev.softirq : ℚ) / (td : ℚ))
    else CpuLine.na
  else CpuLine.blank

/-- The function `print_cpu_usage`. The argument `read` is what `get_cpu_stats(current)` leaves
in `*current` when it returns 0, and `none` when it fails. The result is the text written
(if any) and the new value of `*prev`. -/
def print_cpu_usage (prev : CPUStats) (read : Option CPUStats) : Option CpuLine × CPUStats :=
  match read with
  | none => (none, prev)
  | some current => (some (cpu_report prev current), current)

/-! ## Network usage (`print_network_usage`, main.c lines 168-198) -/

/-- The struct `NetworkStats`. -/
structure NetworkStats where
  name : String
  rx_bytes : Nat
  tx_bytes : Nat
deriving DecidableEq, Repr

/-- The value of a C `double`: an exact rational, or the non-finite result (`inf`, `-inf` or
`nan`) of a division by zero. -/
inductive Dbl where
  | fin (q : ℚ)
  | nonfinite
deriving DecidableEq

/-- Division of a `double` by a finite `double`; a zero divisor gives a non-finite value. -/
def Dbl.div : Dbl → ℚ → Dbl
  | Dbl.fin x, y => if y = 0 then Dbl.nonfinite else Dbl.fin (x / y)
  | Dbl.nonfinite, _ => Dbl.nonfinite

/-- Addition of two `double` values; a non-finite operand gives a non-finite sum. -/
def Dbl.add : Dbl → Dbl → Dbl
  | Dbl.fin x, Dbl.fin y => Dbl.fin (x + y)
  | _, _ => Dbl.nonfinite

/-- The four accumulators of `print_network_usage` (lines 173-176). -/
structure NetTotals where
  total_down_speed : Dbl
  total_up_speed : Dbl
  total_down_bytes : Nat
  total_up_bytes : Nat
deriving DecidableEq

/-- The inner loop of lines 179-191: the first slot of `prev_stats` whose name equals the name
of the current interface (`strcmp(...) == 0`, then `break`). -/
def find_prev (prev_stats : List NetworkStats) (name : String) : Option NetworkStats :=
  prev_stats.find? (fun p => decide (p.name = name))

/-- One iteration of the outer loop (lines 178-193) on the accumulators. -/
def net_step (prev_stats : List NetworkStats) (elapsed_time : ℚ)
    (acc : NetTotals) (cur : NetworkStats) : NetTotals :=
  match find_prev prev_stats cur.name with
  | some p =>
    let rx_diff := usub cur.rx_bytes p.rx_bytes
    let tx_diff := usub cur.tx_bytes p.tx_bytes
    let down_speed := ((Dbl.fin (rx_diff : ℚ)).div elapsed_time).div 1024
    let up_speed := ((Dbl.fin (tx_diff : ℚ)).div elapsed_time).div 1024
    { total_down_speed := acc.total_down_speed.add down_speed
      total_up_speed := acc.total_up_speed.add up_speed
      total_down_bytes := uadd acc.total_down_bytes cur.rx_bytes
      total_up_bytes := uadd acc.total_up_bytes cur.tx_bytes }
  | none => acc

/-- The function `get_network_stats`: `file` is the list of rows of `/proc/net/dev` that match
the eleven-field pattern (`none` when the file cannot be opened); at most `count` rows are
stored. The C return value is the length of the list, or -1 for `none`. -/
def get_network_stats (file : Option (List NetworkStats)) (count : Nat) :
    Option (List NetworkStats) :=
  file.map (fun rows => rows.take count)

/-- The function `print_network_usage`. The array `prev_stats` is the list of its `count`
slots, so `count` is `prev_stats.length`. The result is the totals printed on lines 194-195
(`none` when the function returns at line 170) and the new content of `prev_stats`: line 197
copies the `current_count` rows just read over the first `current_count` slots. -/
def print_network_usage (prev_stats : List NetworkStats) (file : Option (List NetworkStats))
    (elapsed_time : ℚ) : Option NetTotals × List NetworkStats :=
  match get_network_stats file prev_stats.length with
  | none => (none, prev_stats)
  | some [] => (none, prev_stats)
  | some (c :: cs) =>
    (some ((c :: cs).foldl (net_step prev_stats elapsed_time)
        { total_down_speed := Dbl.fin 0, total_up_speed := Dbl.fin 0,
          total_down_bytes := 0, total_up_bytes := 0 }),
     (c :: cs) ++ prev_stats.drop (c :: cs).length)

/-- The aggregate the specification describes: the sum, over the current interfaces and the
previous interfaces of the same name, of `(curr.field - prev.field) / elapsed / 1024`, in exact
arithmetic. The previous interfaces are the distinct rows of the table `prev` (the zeroed
slots of the table of `main` are one row with an empty name). -/
def matched_rate_sum (field : NetworkStats → Nat) (prev cur : List NetworkStats)
    (elapsed : ℚ) : ℚ :=
  (cur.map (fun c =>
    ((prev.dedup.filter (fun p => decide (p.name = c.name))).map
      (fun p => ((field c : ℚ) - (field p : ℚ)) / elapsed / 1024)).sum)).sum

/-- The names of a table are unique: two slots with the same name hold the same row. -/
def unique_names (table : List NetworkStats) : Prop :=
  ∀ p ∈ table, ∀ q ∈ table, p.name = q.name → p = q

instance (table : List NetworkStats) : Decidable (unique_names table) := by
  unfold unique_names; infer_instance

/-- The network part of the loop of `main` (lines 447-453): each tick calls
`print_network_usage` on the shared table `prev_stats` with what it reads and the elapsed time.
The result is what each tick printed and the final content of `prev_stats`. -/
def net_ticks (prev_stats : List NetworkStats) :
    List (Option (List NetworkStats) × ℚ) → List (Option NetTotals) × List NetworkStats
  | [] => ([], prev_stats)
  | (file, elapsed_time) :: rest =>
    let r := print_network_usage prev_stats file elapsed_time
    let rs := net_ticks r.2 rest
    (r.1 :: rs.1, rs.2)

/-- The initial tables of `main` (lines 416-418): ten zeroed slots. -/
def initial_net_stats : List NetworkStats :=
  List.replicate 10 { name := "", rx_bytes := 0, tx_bytes := 0 }

/-! ## C strings and the `stdio` scanning directives the code uses

A C string is the list of its characters before the terminating NUL. The conversions are
those of glibc on x86-64 (`long` has 64 bits, `int` 32). -/

/-- The C function `isspace` in the "C" locale. -/
def isspace (c : Char) : Bool :=
  c = ' ' || c = '\t' || c = '\n' || c = Char.ofNat 11 || c = Char.ofNat 12 || c = '\r'

/-- The value of a run of decimal digits. -/
def digits_val (ds : List Char) : Nat :=
  ds.foldl (fun n c => 10 * n + (c.toNat - 48)) 0

/-- The value `strtol` gives to a sign and a run of digits: the number, clamped to the range
of `long`. -/
def strtol_val (neg : Bool) (v : Nat) : Int :=
  if neg then max (-(v : Int)) (-2 ^ 63) else min (v : Int) (2 ^ 63 - 1)

/-- Conversion of a `long` to `int`: reduction modulo `2 ^ 32` into the range of `int`. -/
def long_to_int (z : Int) : Int :=
  (z + 2 ^ 31) % 2 ^ 32 - 2 ^ 31

/-- The directive `%d` of `sscanf`: skip white space, read an optional sign and at least one
digit. The result is the `int` stored (the `strtol` value converted to `int`) and the unread
input, or `none` when the directive fails. -/
def scan_d (s : List Char) : Option (Int × List Char) :=
  let t := s.dropWhile isspace
  let u := if t.head? = some '-' ∨ t.head? = some '+' then t.tail else t
  let ds := u.takeWhile Char.isDigit
  if ds = [] then none
  else some (long_to_int (strtol_val (decide (t.head? = some '-')) (digits_val ds)),
             u.dropWhile Char.isDigit)

/-- The directive `%s` of `sscanf`: skip white space, read the longest run of characters that
are not white space; fails at the end of the input. -/
def scan_s (s : List Char) : Option (List Char × List Char) :=
  let t := s.dropWhile isspace
  if t = [] then none
  else some (t.takeWhile (fun c => !isspace c), t.dropWhile (fun c => !isspace c))

/-- The C function `atoi`, `(int) strtol(s, NULL, 10)`: the value of the leading optionally
signed digits, 0 without any. -/
def atoi (s : List Char) : Int :=
  match scan_d s with
  | some (v, _) => v
  | none => 0

/-- Reading with `fgets` into a buffer that has room for `room` more characters: stop after a
newline or when the room is used up. The result is the buffer and the unread input. -/
def fgets_go : Nat → List Char → List Char × List Char
  | 0, s => ([], s)
  | _ + 1, [] => ([], [])
  | n + 1, c :: cs =>
    if c = '\n' then ([c], cs)
    else ((c :: (fgets_go n cs).1), (fgets_go n cs).2)

/-- The C function `fgets(buffer, size, fp)` on the unread, non-empty content of a file: at
most `size - 1` characters, up to and including the first newline. (At the end of the file
`fgets` returns NULL and leaves the buffer as it was; the callers below test for that.) -/
def fgets (size : Nat) (stream : List Char) : List Char × List Char :=
  fgets_go (size - 1) stream

/-! ## Processes (`get_top_processes`, main.c lines 200-265) -/

/-- The struct `ProcessInfo`. The field `cpu_usage` holds the value of a finite `double`
(the code only ever stores 0.0 there). -/
structure ProcessInfo where
  pid : Int
  name : List Char
  cpu_usage : ℚ
  memory_usage : Nat
deriving DecidableEq

/-- Conversion of an `unsigned long long` to `int` (the return type of the comparators):
reduction modulo `2 ^ 32` into the range of `int`, as gcc and clang define it. -/
def ull_to_int (n : Nat) : Int :=
  if n % 2 ^ 32 < 2 ^ 31 then ((n % 2 ^ 32 : Nat) : Int) else ((n % 2 ^ 32 : Nat) : Int) - 2 ^ 32

/-- Rounding of a rational to the nearest integer, ties to the even one. -/
def round_half_even (r : ℚ) : Int :=
  if r - (Rat.floor r : ℚ) < 1 / 2 then Rat.floor r
  else if 1 / 2 < r - (Rat.floor r : ℚ) then Rat.floor r + 1
  else if Rat.floor r % 2 = 0 then Rat.floor r
  else Rat.floor r + 1

/-- Rounding of an exact result to the nearest `double` (IEEE 754 binary64, round to nearest,
ties to even): 53 significant bits, with the fixed spacing `2 ^ (-1074)` below `2 ^ (-1022)`.
A result beyond the largest `double` is kept as a rational; the only use below converts it to
`int`, which treats it as it treats an infinity. -/
def round_double (q : ℚ) : ℚ :=
  if q = 0 then 0
  else (round_half_even (q / 2 ^ (max (Int.log 2 |q|) (-1022) - 52)) : ℚ)
    * 2 ^ (max (Int.log 2 |q|) (-1022) - 52)

/-- Conversion of a `double` to `int`: truncation toward zero. A value outside the range of
`int` is undefined behaviour in C; it is given the value `INT_MIN` that x86-64 produces. -/
def double_to_int (q : ℚ) : Int :=
  if -2 ^ 31 ≤ q.num.tdiv q.den ∧ q.num.tdiv q.den < 2 ^ 31 then q.num.tdiv q.den else -2 ^ 31

/-- The function `compare_processes_cpu` (line 201): the `double` difference
`b->cpu_usage - a->cpu_usage`, rounded as the subtraction of two `double` values is, converted
to `int`. -/
def compare_processes_cpu (a b : ProcessInfo) : Int :=
  double_to_int (round_double (b.cpu_usage - a.cpu_usage))

/-- The function `compare_processes_mem` (line 205): `b->memory_usage - a->memory_usage` in
`unsigned long long`, as `int`. -/
def compare_processes_mem (a b : ProcessInfo) : Int :=
  ull_to_int (usub b.memory_usage a.memory_usage)

/-- The C library function `qsort`, which is not part of the repository: a stable insertion
sort that places `a` before `b` when the comparator returns a value `≤ 0`. The theorems use
only that it rearranges its input. -/
def qsort (cmp : ProcessInfo → ProcessInfo → Int) (l : List ProcessInfo) : List ProcessInfo :=
  l.insertionSort (fun a b => cmp a b ≤ 0)

/-- The content of the two stack arrays `buffer[512]` (line 222) and `comm[256]` (line 225).
They are not initialised, and an iteration of the loop finds in them what the iteration
before left there. -/
structure ScanBuf where
  buffer : List Char
  comm : List Char
deriving DecidableEq

/-- The first `sscanf` (lines 226-227), `"%d %s %*c ..."`, as far as its results are used: the
pid and the token `comm`. A directive that fails leaves its variable, and those after it, as
they were (`pid0`, `comm0`). The result is `none` when the token does not fit `comm[256]`
with its terminating NUL: the write past the array is undefined. The two tick counters the
call also reads are never used. -/
def scan_stat (buffer : List Char) (pid0 : Int) (comm0 : List Char) :
    Option (Int × List Char) :=
  match scan_d buffer with
  | none => some (pid0, comm0)
  | some (pid, rest) =>
    match scan_s rest with
    | none => some (pid, comm0)
    | some (comm, _) => if comm.length < 256 then some (pid, comm) else none

/-- The second `sscanf` (line 229), `"(%[^)])"` applied to `comm`: after a literal `(`, the
longest non-empty run of characters other than `)`; otherwise the name is left as it was. The
result is `none` when the run does not fit `name[256]`. -/
def scan_name (comm : List Char) (name0 : List Char) : Option (List Char) :=
  match comm with
  | '(' :: t =>
    if t.takeWhile (fun c => c ≠ ')') = [] then some name0
    else if (t.takeWhile (fun c => c ≠ ')')).length < 256 then
      some (t.takeWhile (fun c => c ≠ ')'))
    else none
  | _ => some name0

/-- Lines 222-229: the pid and the name stored for a process whose stat file has the given
content, and what is left in the two arrays. `pid0` and `name0` are the previous content of
the slot. For an empty file `fgets` returns NULL and the buffer is scanned as it was. -/
def read_stat (st : ScanBuf) (content : List Char) (pid0 : Int) (name0 : List Char) :
    Option (Int × List Char × ScanBuf) :=
  match scan_stat (if content = [] then st.buffer else (fgets 512 content).1) pid0 st.comm with
  | none => none
  | some (pid, comm) =>
    match scan_name comm name0 with
    | none => none
    | some name =>
      some (pid, name,
        { buffer := if content = [] then st.buffer else (fgets 512 content).1, comm := comm })

/-- The directive `%llu` after the literal `VmRSS:` (line 238): the value read, if any. As
`strtoull` does, the directive accepts a sign; a number above `2 ^ 64 - 1` gives `2 ^ 64 - 1`,
and a minus sign negates modulo `2 ^ 64`. -/
def scan_vmrss (buffer : List Char) : Option Nat :=
  let t := (buffer.drop 6).dropWhile isspace
  let u := if t.head? = some '-' ∨ t.head? = some '+' then t.tail else t
  let ds := u.takeWhile Char.isDigit
  if ds = [] then none
  else if U64 ≤ digits_val ds then some (U64 - 1)
  else some (if t.head? = some '-' then usub 0 (digits_val ds) else digits_val ds)

/-- The loop of lines 236-242 over the lines of the status file, which reads them into the
same `buffer`: at the first line that starts with `VmRSS:` the value read (or the old value if
none is read) is multiplied by 1024. The result is the memory usage and the buffer. -/
def scan_status : Nat → List Char → Nat → List Char → Nat × List Char
  | 0, _, mem, buffer => (mem, buffer)
  | fuel + 1, stream, mem, buffer =>
    if stream = [] then (mem, buffer)
    else if "VmRSS:".toList.isPrefixOf (fgets 512 stream).1 then
      (((scan_vmrss (fgets 512 stream).1).getD mem * 1024) % U64, (fgets 512 stream).1)
    else scan_status fuel (fgets 512 stream).2 mem (fgets 512 stream).1

/-- An entry of `/proc` as `get_top_processes` sees it: its name, the content of
`/proc/<pid>/stat` (`none` when `fopen` fails), and the content of the file at the path built
on line 233, `/proc/<pid>}/status` (`none` when `fopen` fails). -/
structure ProcEntry where
  d_name : List Char
  stat : Option (List Char)
  status : Option (List Char)
deriving DecidableEq

/-- The tests of lines 217 and 221: the entry has a positive number as name and its stat file
opens. -/
def ProcEntry.readable (e : ProcEntry) : Bool :=
  decide (0 < atoi e.d_name) && e.stat.isSome

/-- Lines 222-247: the record written into a slot whose previous content is `slot`, and what
is left in the two arrays; `none` when a token overruns `comm` or `name`. -/
def fill_slot (st : ScanBuf) (slot : ProcessInfo) (e : ProcEntry) :
    Option (ProcessInfo × ScanBuf) :=
  match read_stat st (e.stat.getD []) slot.pid slot.name with
  | none => none
  | some (pid, name, st1) =>
    match e.status with
    | none =>
      some ({ pid := pid, name := name, cpu_usage := 0, memory_usage := slot.memory_usage },
            st1)
    | some text =>
      some ({ pid := pid, name := name, cpu_usage := 0,
              memory_usage :=
                (scan_status (text.length + 1) text slot.memory_usage st1.buffer).1 },
            { buffer := (scan_status (text.length + 1) text slot.memory_usage st1.buffer).2,
              comm := st1.comm })

/-- The loop of lines 215-251. `slots` are the slots of the array `processes` from index
`process_count` on, `room` is `max_processes - process_count`; the result is the list of the
records stored, in order. The loop ends when the room is used up or the directory is read
through; an entry that is not readable takes no slot and leaves the arrays alone. The result
is `none` when a token overruns `comm` or `name`, or a record is written past the end of the
array `processes`. -/
def scan_proc (st : ScanBuf) :
    List ProcessInfo → Nat → List ProcEntry → Option (List ProcessInfo)
  | _, 0, _ => some []
  | _, _ + 1, [] => some []
  | slots, room + 1, e :: es =>
    if e.readable then
      match slots with
      | [] => none
      | slot :: rest =>
        match fill_slot st slot e with
        | none => none
        | some (r, st1) => (scan_proc st1 rest room es).map (fun rs => r :: rs)
    else scan_proc st slots (room + 1) es

/-- The records the scanning code stores for a list of entries, one slot each, in order. -/
def fill_all (st : ScanBuf) : List ProcessInfo → List ProcEntry → Option (List ProcessInfo)
  | _, [] => some []
  | [], _ :: _ => none
  | slot :: rest, e :: es =>
    match fill_slot st slot e with
    | none => none
    | some (r, st1) => (fill_all st1 rest es).map (fun rs => r :: rs)

/-- The function `get_top_processes`: `st` is what the two stack arrays hold on entry,
`processes` is the caller's array (its previous content), `dir` the entries of `/proc` in the
order `readdir` returns them (`none` when `opendir` fails). The result is the first
`process_count` slots of the array after `qsort`; `none` when the behaviour is undefined. -/
def get_top_processes (st : ScanBuf) (processes : List ProcessInfo) (max_processes : Nat)
    (sort_by_cpu : Bool) (dir : Option (List ProcEntry)) : Option (List ProcessInfo) :=
  (scan_proc st processes max_processes (dir.getD [])).map
    (qsort (if sort_by_cpu then compare_processes_cpu else compare_processes_mem))

/-- The text between the first `(` and the last `)` of a line, as the specification describes
the process name. -/
def name_between_parens (line : List Char) : List Char :=
  (((line.dropWhile (fun c => c ≠ '(')).drop 1).reverse.dropWhile (fun c => c ≠ ')')).drop 1
    |>.reverse

/-! ## Sensors (`strreplace` and `print_temperature_fan_speeds`, main.c lines 292-382) -/

/-- The C function `strstr`: the part of `hay` that starts at the first occurrence of
`needle`, or `none` (NULL) when there is none. -/
def strstr : List Char → List Char → Option (List Char)
  | [], needle => if needle = [] then some [] else none
  | c :: cs, needle =>
    if needle.isPrefixOf (c :: cs) then some (c :: cs) else strstr cs needle

/-- The counting loop of lines 300-302: the number of occurrences of `rep` found from left to
right, each search starting after the previous occurrence. The fuel bounds the number of
iterations (for an empty `rep` the C loop does not end). -/
def count_rep (rep : List Char) : Nat → List Char → Nat
  | 0, _ => 0
  | fuel + 1, ins =>
    match strstr ins rep with
    | none => 0
    | some tmp => count_rep rep fuel (tmp.drop rep.length) + 1

/-- The copying loop of lines 308-318, run `count` times on what is left of `orig`; the result
is what it appends to the output. `none` stands for the NULL pointer that `strstr` would
return if `count` were too large. -/
def replace_loop (rep w : List Char) : Nat → List Char → Option (List Char)
  | 0, orig => some orig
  | count + 1, orig =>
    match strstr orig rep with
    | none => none
    | some ins =>
      (replace_loop rep w count (orig.drop ((orig.length - ins.length) + rep.length))).map
        (fun rest => orig.take (orig.length - ins.length) ++ w ++ rest)

/-- The function `strreplace(orig, rep, with)` (`malloc` is taken to succeed). -/
def strreplace (orig rep w : List Char) : Option (List Char) :=
  replace_loop rep w (count_rep rep (orig.length + 1) orig) orig

/-- The kind of reading an entry of a hwmon directory is displayed as. -/
inductive SensorKind where
  | temp
  | fan
deriving DecidableEq

/-- The tests of lines 339 and 357: `strncmp(d_name, "temp", 4) == 0` (resp. `"fan"`, 3) and
`strstr(d_name, "_input")` is not NULL. -/
def sensor_kind (d_name : List Char) : Option SensorKind :=
  if "temp".toList.isPrefixOf d_name ∧ (strstr d_name "_input".toList).isSome then
    some SensorKind.temp
  else if "fan".toList.isPrefixOf d_name ∧ (strstr d_name "_input".toList).isSome then
    some SensorKind.fan
  else none

/-- The file name of the label of a selected entry (lines 346 and 363). -/
def label_name (d_name : List Char) : Option (List Char) :=
  strreplace d_name "input".toList "label".toList

/-! # Theorems -/

/-! ## Unsigned arithmetic -/

theorem usub_of_le {a b : Nat} (ha : a < U64) (hb : b ≤ a) : usub a b = a - b := by
  unfold usub U64 at *
  omega

theorem usub_self (a : Nat) : usub a a = 0 := by
  unfold usub U64
  omega

theorem usub_cast_of_le {a b : Nat} (ha : a < U64) (hb : b ≤ a) :
    ((usub a b : Nat) : ℚ) = (a : ℚ) - (b : ℚ) := by
  rw [usub_of_le ha hb, Nat.cast_sub hb]

/-- When the sum of the current counters fits 64 bits and no total went backwards, the C
variable `total_diff` is the mathematical difference of the two sums. -/
theorem total_diff_eq_of_no_overflow (prev cur : CPUStats)
    (hfit : cur.user + cur.nice + cur.system + cur.idle + cur.iowait + cur.irq + cur.softirq < U64)
    (hle : prev.user + prev.nice + prev.system + prev.idle + prev.iowait + prev.irq + prev.softirq
      ≤ cur.user + cur.nice + cur.system + cur.idle + cur.iowait + cur.irq + cur.softirq) :
    total_diff prev cur
      = (cur.user + cur.nice + cur.system + cur.idle + cur.iowait + cur.irq + cur.softirq)
        - (prev.user + prev.nice + prev.system + prev.idle + prev.iowait + prev.irq
            + prev.softirq) := by
  unfold total_diff total_ticks usub U64 at *
  omega

/-! ## CPU usage -/

/-- C1. In `print_cpu_usage`, for a previous snapshot with a non-zero counter and a current
snapshot (of 64-bit counters) in which every counter is at least its previous value and
`total_diff` (line 95) is positive, the reported overall usage is
`100 * (1 - idle_diff / total_diff)` and user, system, nice, iowait, irq and softirq are
reported as `100 * category_diff / total_diff`, the category differences being the exact
differences of the counters; in particular `total_diff = 1000` with an idle difference of 400
reports 60. -/
theorem cpu_usage_formula (prev cur : CPUStats) (hc : cur.valid) (hnz : prev.nonzero)
    (h1 : prev.user ≤ cur.user) (h2 : prev.nice ≤ cur.nice) (h3 : prev.system ≤ cur.system)
    (h4 : prev.idle ≤ cur.idle) (h5 : prev.iowait ≤ cur.iowait) (h6 : prev.irq ≤ cur.irq)
    (h7 : prev.softirq ≤ cur.softirq) (hpos : 0 < total_diff prev cur) :
    print_cpu_usage prev (some cur)
      = (some (CpuLine.usage
          (100 * (1 - ((cur.idle : ℚ) - (prev.idle : ℚ)) / (total_diff prev cur : ℚ)))
          (100 * ((cur.user : ℚ) - (prev.user : ℚ)) / (total_diff prev cur : ℚ))
          (100 * ((cur.system : ℚ) - (prev.system : ℚ)) / (total_diff prev cur : ℚ))
          (100 * ((cur.nice : ℚ) - (prev.nice : ℚ)) / (total_diff prev cur : ℚ))
          (100 * ((cur.iowait : ℚ) - (prev.iowait : ℚ)) / (total_diff prev cur : ℚ))
          (100 * ((cur.irq : ℚ) - (prev.irq : ℚ)) / (total_diff prev cur : ℚ))
          (100 * ((cur.softirq : ℚ) - (prev.softirq : ℚ)) / (total_diff prev cur : ℚ))), cur)
    ∧ (total_diff prev cur = 1000 → cur.idle - prev.idle = 400 →
        (print_cpu_usage prev (some cur)).1.bind CpuLine.overall = some 60) := by
  obtain ⟨v1, v2, v3, v4, v5, v6, v7⟩ := hc
  have key : cpu_report prev cur = CpuLine.usage
      (100 * (1 - ((cur.idle : ℚ) - (prev.idle : ℚ)) / (total_diff prev cur : ℚ)))
      (100 * ((cur.user : ℚ) - (prev.user : ℚ)) / (total_diff prev cur : ℚ))
      (100 * ((cur.system : ℚ) - (prev.system : ℚ)) / (total_diff prev cur : ℚ))
      (100 * ((cur.nice : ℚ) - (prev.nice : ℚ)) / (total_diff prev cur : ℚ))
      (100 * ((cur.iowait : ℚ) - (prev.iowait : ℚ)) / (total_diff prev cur : ℚ))
      (100 * ((cur.irq : ℚ) - (prev.irq : ℚ)) / (total_diff prev cur : ℚ))
      (100 * ((cur.softirq : ℚ) - (prev.softirq : ℚ)) / (total_diff prev cur : ℚ)) := by
    unfold cpu_report idle_diff
    rw [if_pos hnz]
    simp only []
    rw [if_pos hpos, usub_cast_of_le v4 h4, usub_cast_of_le v1 h1, usub_cast_of_le v3 h3,
      usub_cast_of_le v2 h2, usub_cast_of_le v5 h5, usub_cast_of_le v6 h6,
      usub_cast_of_le v7 h7]
  refine ⟨by simp only [print_cpu_usage, key], ?_⟩
  intro ht hi
  simp only [print_cpu_usage, key, Option.some_bind, CpuLine.overall]
  have e : ((cur.idle : ℚ) - (prev.idle : ℚ)) = 400 := by
    rw [← Nat.cast_sub h4, hi]; norm_num
  rw [e, ht]
  norm_num

/-- Witness for C1: the spec's example, a total difference of 1000 ticks of which 400 idle. -/
theorem cpu_usage_formula_witness :
    print_cpu_usage ⟨1000, 0, 0, 1000, 0, 0, 0⟩ (some ⟨1600, 0, 0, 1400, 0, 0, 0⟩)
      = (some (CpuLine.usage 60 60 0 0 0 0 0), ⟨1600, 0, 0, 1400, 0, 0, 0⟩) := by
  have h := (cpu_usage_formula ⟨1000, 0, 0, 1000, 0, 0, 0⟩ ⟨1600, 0, 0, 1400, 0, 0, 0⟩
    (by decide) (by decide) (by decide) (by decide) (by decide) (by decide) (by decide)
    (by decide) (by decide) (by decide)).1
  have ht : total_diff ⟨1000, 0, 0, 1000, 0, 0, 0⟩ ⟨1600, 0, 0, 1400, 0, 0, 0⟩ = 1000 := by
    decide
  rw [h, ht]
  norm_num

/-- C3 (counterexample). With a previous snapshot that is not all-zero, a regressing counter is
not reported as N/A: when `idle` falls from 10 to 5 while the total grows by 5, the unsigned
`idle_diff` wraps to `2 ^ 64 - 5` and a negative percentage is reported; when the total falls
from 20 to 10, `total_diff` wraps to `2 ^ 64 - 10 > 0` and percentages are reported as well. -/
theorem cpu_regression_counterexample :
    CPUStats.nonzero ⟨10, 0, 0, 10, 0, 0, 0⟩
    ∧ (print_cpu_usage ⟨10, 0, 0, 10, 0, 0, 0⟩ (some ⟨20, 0, 0, 5, 0, 0, 0⟩)).1.bind
        CpuLine.overall = some (100 * (1 - (2 ^ 64 - 5) / 5))
    ∧ (100 * (1 - (2 ^ 64 - 5) / 5) : ℚ) < 0
    ∧ (print_cpu_usage ⟨10, 0, 0, 10, 0, 0, 0⟩ (some ⟨5, 0, 0, 5, 0, 0, 0⟩)).1
        = some (CpuLine.usage (100 * (1 - (2 ^ 64 - 5) / (2 ^ 64 - 10)))
            (100 * (2 ^ 64 - 5) / (2 ^ 64 - 10)) 0 0 0 0 0) := by
  refine ⟨by decide, ?_, by norm_num, ?_⟩
  · norm_num [print_cpu_usage, cpu_report, CPUStats.nonzero, total_diff, total_ticks,
      idle_diff, usub, U64, CpuLine.overall]
  · norm_num [print_cpu_usage, cpu_report, CPUStats.nonzero, total_diff, total_ticks,
      idle_diff, usub, U64]

/-- C3 (amended). In `print_cpu_usage`, for a previous snapshot that is not all-zero and a
current snapshot whose 64-bit total equals the previous total (which includes a counter that
regresses while the total is unchanged), CPU usage is reported as N/A and no percentage is
computed. -/
theorem cpu_na_of_equal_totals (prev cur : CPUStats) (hnz : prev.nonzero)
    (h : total_ticks cur = total_ticks prev) :
    print_cpu_usage prev (some cur) = (some CpuLine.na, cur)
    ∧ (print_cpu_usage prev (some cur)).1.bind CpuLine.overall = none := by
  have key : cpu_report prev cur = CpuLine.na := by
    unfold cpu_report total_diff
    rw [if_pos hnz, h, usub_self]
    simp
  simp [print_cpu_usage, key, CpuLine.overall]

/-- Witness for C3 (amended): the spec's reset example, `idle` falling from 100 to 50 with
the total unchanged. -/
theorem cpu_na_of_equal_totals_witness :
    print_cpu_usage ⟨100, 0, 0, 100, 0, 0, 0⟩ (some ⟨150, 0, 0, 50, 0, 0, 0⟩)
        = (some CpuLine.na, ⟨150, 0, 0, 50, 0, 0, 0⟩)
    ∧ (print_cpu_usage ⟨100, 0, 0, 100, 0, 0, 0⟩ (some ⟨150, 0, 0, 50, 0, 0, 0⟩)).1.bind
        CpuLine.overall = none :=
  cpu_na_of_equal_totals ⟨100, 0, 0, 100, 0, 0, 0⟩ ⟨150, 0, 0, 50, 0, 0, 0⟩
    (by decide) (by decide)

/-- Two reads of the same counters: the report of the second is N/A, or the blank line when
every counter is zero. -/
theorem cpu_report_self (s : CPUStats) :
    cpu_report s s = if s.nonzero then CpuLine.na else CpuLine.blank := by
  unfold cpu_report total_diff
  rw [usub_self]
  simp

/-! ## Network usage -/

theorem find_prev_some {prev : List NetworkStats} {n : String} {p : NetworkStats}
    (h : find_prev prev n = some p) : p ∈ prev ∧ p.name = n := by
  unfold find_prev at h
  refine ⟨List.mem_of_find?_eq_some h, ?_⟩
  have := List.find?_some h
  simpa using this

theorem dedup_filter_name_eq_find_prev (prev : List NetworkStats) (n : String)
    (huniq : unique_names prev) :
    prev.dedup.filter (fun p => decide (p.name = n)) = (find_prev prev n).toList := by
  cases hf : find_prev prev n with
  | none =>
    have hnone := List.find?_eq_none.1 hf
    simp only [Option.toList]
    rw [List.filter_eq_nil_iff]
    intro a ha
    exact hnone a (List.mem_dedup.1 ha)
  | some p =>
    obtain ⟨hmem, hname⟩ := find_prev_some hf
    have hnd : (prev.dedup.filter (fun p => decide (p.name = n))).Nodup :=
      (List.nodup_dedup prev).filter _
    have hall : ∀ b ∈ prev.dedup.filter (fun p => decide (p.name = n)), b = p := by
      intro b hb
      obtain ⟨hb1, hb2⟩ := List.mem_filter.1 hb
      exact huniq b (List.mem_dedup.1 hb1) p hmem ((of_decide_eq_true hb2).trans hname.symm)
    have hp : p ∈ prev.dedup.filter (fun p => decide (p.name = n)) :=
      List.mem_filter.2 ⟨List.mem_dedup.2 hmem, decide_eq_true hname⟩
    generalize prev.dedup.filter (fun p => decide (p.name = n)) = l at hnd hall hp
    have hrep : l = List.replicate l.length p := List.eq_replicate_iff.2 ⟨rfl, hall⟩
    have hlen : l.length ≤ 1 := by
      have h2 := hnd
      rw [hrep] at h2
      exact List.nodup_replicate.1 h2
    have hpos : 0 < l.length := List.length_pos_of_mem hp
    have h1 : l.length = 1 := by omega
    rw [hrep, h1]
    rfl

/-- One loop iteration adds the matched term of the current interface to both speed totals. -/
theorem net_step_speeds (prev : List NetworkStats) (elapsed : ℚ) (he : elapsed ≠ 0)
    (huniq : unique_names prev) (acc : NetTotals) (c : NetworkStats) (a b : ℚ)
    (ha : acc.total_down_speed = Dbl.fin a) (hb : acc.total_up_speed = Dbl.fin b)
    (hv : c.rx_bytes < U64 ∧ c.tx_bytes < U64)
    (hm : ∀ p ∈ prev, p.name = c.name → p.rx_bytes ≤ c.rx_bytes ∧ p.tx_bytes ≤ c.tx_bytes) :
    (net_step prev elapsed acc c).total_down_speed
        = Dbl.fin (a + matched_rate_sum NetworkStats.rx_bytes prev [c] elapsed)
    ∧ (net_step prev elapsed acc c).total_up_speed
        = Dbl.fin (b + matched_rate_sum NetworkStats.tx_bytes prev [c] elapsed) := by
  unfold matched_rate_sum net_step
  simp only [List.map_cons, List.map_nil, List.sum_cons, List.sum_nil, add_zero]
  rw [dedup_filter_name_eq_find_prev prev c.name huniq]
  cases hf : find_prev prev c.name with
  | none => simp [ha, hb]
  | some p =>
    obtain ⟨hmem, hname⟩ := find_prev_some hf
    obtain ⟨hrx, htx⟩ := hm p hmem hname
    simp only [Option.toList, List.map_cons, List.map_nil, List.sum_cons, List.sum_nil,
      add_zero, ha, hb, Dbl.div, Dbl.add, if_neg he, usub_cast_of_le hv.1 hrx,
      usub_cast_of_le hv.2 htx]
    norm_num

theorem matched_rate_sum_cons (field : NetworkStats → Nat) (prev : List NetworkStats)
    (c : NetworkStats) (cs : List NetworkStats) (elapsed : ℚ) :
    matched_rate_sum field prev (c :: cs) elapsed
      = matched_rate_sum field prev [c] elapsed + matched_rate_sum field prev cs elapsed := by
  simp [matched_rate_sum]

/-- The whole loop adds the claimed aggregate to both speed totals. -/
theorem net_fold_speeds (prev : List NetworkStats) (elapsed : ℚ) (he : elapsed ≠ 0)
    (huniq : unique_names prev) (cur : List NetworkStats) :
    ∀ (acc : NetTotals) (a b : ℚ),
      acc.total_down_speed = Dbl.fin a → acc.total_up_speed = Dbl.fin b →
      (∀ c ∈ cur, c.rx_bytes < U64 ∧ c.tx_bytes < U64) →
      (∀ c ∈ cur, ∀ p ∈ prev, p.name = c.name →
        p.rx_bytes ≤ c.rx_bytes ∧ p.tx_bytes ≤ c.tx_bytes) →
      (cur.foldl (net_step prev elapsed) acc).total_down_speed
          = Dbl.fin (a + matched_rate_sum NetworkStats.rx_bytes prev cur elapsed)
      ∧ (cur.foldl (net_step prev elapsed) acc).total_up_speed
          = Dbl.fin (b + matched_rate_sum NetworkStats.tx_bytes prev cur elapsed) := by
  induction cur with
  | nil =>
    intro acc a b ha hb _ _
    simp [matched_rate_sum, ha, hb]
  | cons c cs ih =>
    intro acc a b ha hb hv hm
    obtain ⟨h1, h2⟩ := net_step_speeds prev elapsed he huniq acc c a b ha hb
      (hv c (List.mem_cons_self c cs)) (hm c (List.mem_cons_self c cs))
    have := ih (net_step prev elapsed acc c) _ _ h1 h2
      (fun x hx => hv x (List.mem_cons_of_mem c hx))
      (fun x hx => hm x (List.mem_cons_of_mem c hx))
    rw [List.foldl_cons, matched_rate_sum_cons NetworkStats.rx_bytes,
      matched_rate_sum_cons NetworkStats.tx_bytes, ← add_assoc, ← add_assoc]
    exact this

/-- C2. In `print_network_usage`, for an elapsed time above zero, a previous table with unique
names (two slots of the same name hold the same row, as the zeroed slots of the table of
`main` do) and a current table (the rows `get_network_stats` stored, 64-bit counters) in
which each matched counter is at least its previous value, the aggregate download rate in
KB/s is the sum, over the current interfaces whose name equals the name of a previous
interface, of `(curr.rx_bytes - prev.rx_bytes) / elapsed / 1024`, and the upload rate the same
sum over `tx_bytes`. (With an empty current table the function returns at line 170 and prints
no aggregate.) -/
theorem network_rate_sum (prev : List NetworkStats) (file : Option (List NetworkStats))
    (cur : List NetworkStats) (elapsed : ℚ)
    (hread : get_network_stats file prev.length = some cur)
    (he : 0 < elapsed)
    (huniq : unique_names prev)
    (hv : ∀ c ∈ cur, c.rx_bytes < U64 ∧ c.tx_bytes < U64)
    (hm : ∀ c ∈ cur, ∀ p ∈ prev, p.name = c.name →
      p.rx_bytes ≤ c.rx_bytes ∧ p.tx_bytes ≤ c.tx_bytes) :
    (print_network_usage prev file elapsed).1.map
        (fun t => (t.total_down_speed, t.total_up_speed))
      = if cur = [] then none
        else some (Dbl.fin (matched_rate_sum NetworkStats.rx_bytes prev cur elapsed),
                   Dbl.fin (matched_rate_sum NetworkStats.tx_bytes prev cur elapsed)) := by
  unfold print_network_usage
  rw [hread]
  cases cur with
  | nil => simp
  | cons c cs =>
    obtain ⟨h1, h2⟩ := net_fold_speeds prev elapsed (ne_of_gt he) huniq (c :: cs)
      { total_down_speed := Dbl.fin 0, total_up_speed := Dbl.fin 0,
        total_down_bytes := 0, total_up_bytes := 0 } 0 0 rfl rfl hv hm
    simp only [Option.map_some', h1, h2, zero_add]
    simp

/-- Witness for C2: the spec's example on the ten-slot table of `main`, which holds `lo` and
`eth0` from the tick before and eight zeroed slots; `wlan0` is new. `rx_bytes` of `eth0` goes
from 1000 to 3048 in 2 seconds, which is 1 KB/s down. -/
theorem network_rate_sum_witness :
    (print_network_usage
        (⟨"lo", 700, 700⟩ :: ⟨"eth0", 1000, 500⟩ :: List.replicate 8 ⟨"", 0, 0⟩)
        (some [⟨"lo", 700, 700⟩, ⟨"eth0", 3048, 500⟩, ⟨"wlan0", 90, 90⟩]) 2).1.map
        (fun t => (t.total_down_speed, t.total_up_speed))
      = some (Dbl.fin 1, Dbl.fin 0) := by
  have h := network_rate_sum
    (⟨"lo", 700, 700⟩ :: ⟨"eth0", 1000, 500⟩ :: List.replicate 8 ⟨"", 0, 0⟩)
    (some [⟨"lo", 700, 700⟩, ⟨"eth0", 3048, 500⟩, ⟨"wlan0", 90, 90⟩])
    [⟨"lo", 700, 700⟩, ⟨"eth0", 3048, 500⟩, ⟨"wlan0", 90, 90⟩] 2
    (by decide) (by norm_num) (by decide) (by decide) (by decide)
  have hd : (⟨"lo", 700, 700⟩ :: ⟨"eth0", 1000, 500⟩
      :: List.replicate 8 (⟨"", 0, 0⟩ : NetworkStats)).dedup
      = [⟨"lo", 700, 700⟩, ⟨"eth0", 1000, 500⟩, ⟨"", 0, 0⟩] := by decide
  rw [h]
  simp only [matched_rate_sum, hd]
  simp [List.filter_cons]
  norm_num

/-- C4. A call of `print_network_usage` with `elapsed_time = 0` and a matched interface
evaluates both divisions by zero and prints non-finite totals; on the first tick of `main`
(zeroed table, elapsed 0) it prints the rates 0 and 0; with `elapsed_time = -2` it prints the
negative rate -1 KB/s. In no case is the rate withheld. -/
theorem network_elapsed_not_guarded :
    print_network_usage [⟨"eth0", 1000, 1000⟩] (some [⟨"eth0", 3048, 1000⟩]) 0
        = (some ⟨Dbl.nonfinite, Dbl.nonfinite, 3048, 1000⟩, [⟨"eth0", 3048, 1000⟩])
    ∧ (print_network_usage initial_net_stats (some [⟨"eth0", 3048, 1000⟩]) 0).1
        = some ⟨Dbl.fin 0, Dbl.fin 0, 0, 0⟩
    ∧ (print_network_usage [⟨"eth0", 1000, 1000⟩] (some [⟨"eth0", 3048, 1000⟩]) (-2)).1
        = some ⟨Dbl.fin (-1), Dbl.fin 0, 3048, 1000⟩ := by
  refine ⟨?_, ?_, ?_⟩
  · norm_num [print_network_usage, get_network_stats, net_step, find_prev, usub, uadd, U64,
      Dbl.div, Dbl.add]
  · simp [print_network_usage, get_network_stats, net_step, find_prev, initial_net_stats,
      List.replicate]
  · norm_num [print_network_usage, get_network_stats, net_step, find_prev, usub, uadd, U64,
      Dbl.div, Dbl.add]

/-- C5. Three ticks on the table of `main`: `wlan0` is read at the first tick, absent at the
second and back at the third. After the second tick `prev_stats` still holds the `wlan0` row of
the first tick, and at the third tick `wlan0` contributes `(9096 - 5000) / 3 / 1024` to the
download rate, on top of the `1000 / 3 / 1024` of `eth0`. -/
theorem stale_interface_contributes :
    (net_ticks initial_net_stats
        [(some [⟨"eth0", 1000, 1000⟩, ⟨"wlan0", 5000, 5000⟩], 0),
         (some [⟨"eth0", 2000, 2000⟩], 3)]).2
      = ⟨"eth0", 2000, 2000⟩ :: ⟨"wlan0", 5000, 5000⟩ :: List.replicate 8 ⟨"", 0, 0⟩
    ∧ (print_network_usage
          (⟨"eth0", 2000, 2000⟩ :: ⟨"wlan0", 5000, 5000⟩ :: List.replicate 8 ⟨"", 0, 0⟩)
          (some [⟨"eth0", 3000, 3000⟩, ⟨"wlan0", 9096, 5000⟩]) 3).1.map
            NetTotals.total_down_speed
      = some (Dbl.fin (1000 / 3 / 1024 + 4096 / 3 / 1024)) := by
  refine ⟨?_, ?_⟩
  · simp [net_ticks, print_network_usage, get_network_stats, initial_net_stats,
      List.replicate]
  · simp [print_network_usage, get_network_stats, net_step, find_prev, usub, uadd, U64,
      Dbl.div, Dbl.add, List.replicate]

/-! ## Two ticks on identical counters -/

theorem find_prev_self (cur : List NetworkStats) (huniq : (cur.map NetworkStats.name).Nodup)
    (c : NetworkStats) (hc : c ∈ cur) (rest : List NetworkStats) :
    find_prev (cur ++ rest) c.name = some c := by
  induction cur with
  | nil => cases hc
  | cons x xs ih =>
    rw [List.map_cons, List.nodup_cons] at huniq
    simp only [find_prev, List.cons_append, List.find?_cons]
    by_cases hx : x.name = c.name
    · simp only [hx, decide_True]
      rcases List.mem_cons.1 hc with h | hmem
      · rw [h]
      · exact absurd (List.mem_map.2 ⟨c, hmem, hx.symm⟩) huniq.1
    · simp only [hx, decide_False]
      rcases List.mem_cons.1 hc with h | hmem
      · exact absurd (by rw [h]) hx
      · exact ih huniq.2 hmem

/-- Matching a table against itself (followed by older slots) adds nothing to the speeds. -/
theorem net_fold_self (cur rest : List NetworkStats) (elapsed : ℚ) (he : elapsed ≠ 0)
    (huniq : (cur.map NetworkStats.name).Nodup) (l : List NetworkStats) :
    ∀ (acc : NetTotals), (∀ c ∈ l, c ∈ cur) →
      acc.total_down_speed = Dbl.fin 0 → acc.total_up_speed = Dbl.fin 0 →
      (l.foldl (net_step (cur ++ rest) elapsed) acc).total_down_speed = Dbl.fin 0
      ∧ (l.foldl (net_step (cur ++ rest) elapsed) acc).total_up_speed = Dbl.fin 0 := by
  induction l with
  | nil => intro acc _ ha hb; exact ⟨ha, hb⟩
  | cons c cs ih =>
    intro acc hsub ha hb
    rw [List.foldl_cons]
    apply ih _ (fun x hx => hsub x (List.mem_cons_of_mem c hx))
    · simp [net_step, find_prev_self cur huniq c (hsub c (List.mem_cons_self c cs)) rest,
        usub_self, Dbl.div, Dbl.add, he, ha]
    · simp [net_step, find_prev_self cur huniq c (hsub c (List.mem_cons_self c cs)) rest,
        usub_self, Dbl.div, Dbl.add, he, hb]

/-- C9 (counterexample). Two ticks that read the same non-zero CPU counters: the second tick
reports N/A, not a usage of 0%. -/
theorem identical_ticks_counterexample :
    (print_cpu_usage (print_cpu_usage ⟨0, 0, 0, 0, 0, 0, 0⟩
        (some ⟨100, 0, 50, 1000, 0, 0, 0⟩)).2 (some ⟨100, 0, 50, 1000, 0, 0, 0⟩)).1
      = some CpuLine.na := by
  decide

/-- C9 (amended). For two consecutive ticks that read identical CPU counters and an identical,
non-empty network table with unique interface names, with `elapsed > 0` at the second tick,
the second tick reports the CPU usage as N/A (the blank line when every counter is zero), and
aggregate network rates of 0. -/
theorem identical_ticks (prev0 s : CPUStats) (net0 : List NetworkStats)
    (file : Option (List NetworkStats)) (cur : List NetworkStats) (e1 e2 : ℚ)
    (hread : get_network_stats file net0.length = some cur) (hne : cur ≠ [])
    (huniq : (cur.map NetworkStats.name).Nodup) (he : 0 < e2) :
    (print_cpu_usage (print_cpu_usage prev0 (some s)).2 (some s)).1
        = some (if s.nonzero then CpuLine.na else CpuLine.blank)
    ∧ (print_network_usage (print_network_usage net0 file e1).2 file e2).1.map
          (fun t => (t.total_down_speed, t.total_up_speed))
        = some (Dbl.fin 0, Dbl.fin 0) := by
  refine ⟨by simp [print_cpu_usage, cpu_report_self], ?_⟩
  have hlen : cur.length ≤ net0.length := by
    cases file with
    | none => simp [get_network_stats] at hread
    | some rows =>
      simp only [get_network_stats, Option.map_some', Option.some.injEq] at hread
      rw [← hread, List.length_take]
      exact Nat.min_le_left _ _
  obtain ⟨c, cs, rfl⟩ := List.exists_cons_of_ne_nil hne
  have h1 : (print_network_usage net0 file e1).2 = (c :: cs) ++ net0.drop (c :: cs).length := by
    simp only [print_network_usage, hread]
  have hl : ((c :: cs) ++ net0.drop (c :: cs).length).length = net0.length := by
    rw [List.length_append, List.length_drop]
    omega
  rw [h1]
  unfold print_network_usage
  rw [hl, hread]
  obtain ⟨ha, hb⟩ := net_fold_self (c :: cs) (net0.drop (c :: cs).length) e2 (ne_of_gt he)
    huniq (c :: cs)
    { total_down_speed := Dbl.fin 0, total_up_speed := Dbl.fin 0,
      total_down_bytes := 0, total_up_bytes := 0 } (fun _ h => h) rfl rfl
  simp only [Option.map_some', ha, hb]

/-- Witness for C9 (amended): two reads of the same counters three seconds apart. -/
theorem identical_ticks_witness :
    (print_cpu_usage (print_cpu_usage ⟨0, 0, 0, 0, 0, 0, 0⟩
        (some ⟨100, 0, 50, 1000, 0, 0, 0⟩)).2 (some ⟨100, 0, 50, 1000, 0, 0, 0⟩)).1
        = some (if CPUStats.nonzero ⟨100, 0, 50, 1000, 0, 0, 0⟩ then CpuLine.na
            else CpuLine.blank)
    ∧ (print_network_usage (print_network_usage initial_net_stats
          (some [⟨"lo", 700, 700⟩, ⟨"eth0", 3048, 1000⟩]) 0).2
          (some [⟨"lo", 700, 700⟩, ⟨"eth0", 3048, 1000⟩]) 3).1.map
          (fun t => (t.total_down_speed, t.total_up_speed))
        = some (Dbl.fin 0, Dbl.fin 0) :=
  identical_ticks ⟨0, 0, 0, 0, 0, 0, 0⟩ ⟨100, 0, 50, 1000, 0, 0, 0⟩ initial_net_stats
    (some [⟨"lo", 700, 700⟩, ⟨"eth0", 3048, 1000⟩]) [⟨"lo", 700, 700⟩, ⟨"eth0", 3048, 1000⟩]
    0 3 (by decide) (by decide) (by decide) (by norm_num)

/-! ## Processes -/

/-- The scanning loop stores the records of the readable entries in enumeration order and
stops at the cap. -/
theorem scan_proc_eq (es : List ProcEntry) :
    ∀ (st : ScanBuf) (slots : List ProcessInfo) (room : Nat),
      scan_proc st slots room es
        = fill_all st slots ((es.filter ProcEntry.readable).take room) := by
  induction es with
  | nil =>
    intro st slots room
    cases room <;> simp [scan_proc, fill_all]
  | cons e es ih =>
    intro st slots room
    cases room with
    | zero => simp [scan_proc, fill_all]
    | succ room =>
      by_cases hr : e.readable = true
      · cases slots with
        | nil => simp [scan_proc, hr, List.filter_cons, fill_all]
        | cons slot rest =>
          cases hf : fill_slot st slot e with
          | none => simp [scan_proc, hr, List.filter_cons, fill_all, hf]
          | some r => simp [scan_proc, hr, List.filter_cons, fill_all, hf, ih r.2 rest room]
      · simp [scan_proc, hr, List.filter_cons, ih st slots (room + 1)]

theorem fill_all_length (es : List ProcEntry) :
    ∀ (st : ScanBuf) (slots recs : List ProcessInfo),
      fill_all st slots es = some recs → recs.length = es.length := by
  induction es with
  | nil =>
    intro st slots recs h
    simp only [fill_all, Option.some.injEq] at h
    rw [← h]
    rfl
  | cons e es ih =>
    intro st slots recs h
    cases slots with
    | nil => simp [fill_all] at h
    | cons slot rest =>
      cases hf : fill_slot st slot e with
      | none => simp [fill_all, hf] at h
      | some r =>
        cases hrest : fill_all r.2 rest es with
        | none => simp [fill_all, hf, hrest] at h
        | some rs =>
          simp only [fill_all, hf, hrest, Option.map_some', Option.some.injEq] at h
          rw [← h, List.length_cons, List.length_cons, ih r.2 rest rs hrest]

theorem qsort_perm (cmp : ProcessInfo → ProcessInfo → Int) (l : List ProcessInfo) :
    (qsort cmp l).Perm l :=
  List.perm_insertionSort _ l

/-- Sorting does not change which pids are returned. -/
theorem get_top_processes_has_pid (x : Int) (st : ScanBuf) (processes : List ProcessInfo)
    (max_processes : Nat) (sort_by_cpu : Bool) (dir : Option (List ProcEntry)) :
    (get_top_processes st processes max_processes sort_by_cpu dir).map
        (fun l => decide (x ∈ l.map ProcessInfo.pid))
      = (scan_proc st processes max_processes (dir.getD [])).map
        (fun l => decide (x ∈ l.map ProcessInfo.pid)) := by
  unfold get_top_processes
  cases scan_proc st processes max_processes (dir.getD []) with
  | none => rfl
  | some l =>
    simp only [Option.map_some', Option.some.injEq, decide_eq_decide]
    exact ((qsort_perm _ l).map ProcessInfo.pid).mem_iff

/-- C6 (counterexample). With a cap of 2 and three readable processes listed in the order
1, 2, 3: sorted by memory, with resident sizes of 1000, 2000 and 900000 kB, the result is the
processes 2 and 1, and process 3, which has the highest memory usage, is left out; sorted by
CPU, process 3 is left out as well, but it is returned when the same entries are listed in
the order 3, 1, 2. -/
theorem top_processes_counterexample :
    (get_top_processes ⟨[], []⟩ (List.replicate 2 ⟨0, [], 0, 0⟩) 2 false
        (some [⟨"1".toList, some "1 (init) S 0 1".toList, some "VmRSS:\t1000 kB\n".toList⟩,
               ⟨"2".toList, some "2 (kthreadd) S 0 0".toList, some "VmRSS:\t2000 kB\n".toList⟩,
               ⟨"3".toList, some "3 (browser) S 1 3".toList,
                 some "VmRSS:\t900000 kB\n".toList⟩])).map
          (List.map (fun r => (r.pid, r.memory_usage))) = some [(2, 2048000), (1, 1024000)]
    ∧ (get_top_processes ⟨[], []⟩ (List.replicate 2 ⟨0, [], 0, 0⟩) 2 true
        (some [⟨"1".toList, some "1 (init) S 0 1".toList, none⟩,
               ⟨"2".toList, some "2 (kthreadd) S 0 0".toList, none⟩,
               ⟨"3".toList, some "3 (browser) S 1 3".toList, none⟩])).map
          (fun l => decide ((3 : Int) ∈ l.map ProcessInfo.pid)) = some false
    ∧ (get_top_processes ⟨[], []⟩ (List.replicate 2 ⟨0, [], 0, 0⟩) 2 true
        (some [⟨"3".toList, some "3 (browser) S 1 3".toList, none⟩,
               ⟨"1".toList, some "1 (init) S 0 1".toList, none⟩,
               ⟨"2".toList, some "2 (kthreadd) S 0 0".toList, none⟩])).map
          (fun l => decide ((3 : Int) ∈ l.map ProcessInfo.pid)) = some true := by
  refine ⟨by decide, ?_, ?_⟩
  · rw [get_top_processes_has_pid]
    decide
  · rw [get_top_processes_has_pid]
    decide

/-- C6 (amended). For every listing and every cap N, `get_top_processes` returns a
rearrangement of the records its loop stores for the first N readable entries of the listing
in enumeration order (a positive numeric name whose stat file opens), at most N of them: the
cap is applied while enumerating, before sorting, so a readable process after the first N is
left out whatever its metric. (The call is undefined exactly when scanning those entries
overruns `comm`, `name` or the array.) -/
theorem top_processes_first_n (st : ScanBuf) (processes : List ProcessInfo)
    (max_processes : Nat) (sort_by_cpu : Bool) (dir : Option (List ProcEntry)) :
    match get_top_processes st processes max_processes sort_by_cpu dir,
      fill_all st processes (((dir.getD []).filter ProcEntry.readable).take max_processes) with
    | some result, some recs => result.Perm recs ∧ result.length ≤ max_processes
    | none, none => True
    | _, _ => False := by
  unfold get_top_processes
  rw [scan_proc_eq]
  cases h : fill_all st processes
      (((dir.getD []).filter ProcEntry.readable).take max_processes) with
  | none => simp
  | some recs =>
    simp only [Option.map_some']
    refine ⟨qsort_perm _ recs, ?_⟩
    rw [(qsort_perm _ recs).length_eq, fill_all_length _ _ _ _ h, List.length_take]
    exact Nat.min_le_left _ _

theorem isDigit_not_special {c : Char} (h : c.isDigit = true) :
    isspace c = false ∧ c ≠ '-' ∧ c ≠ '+' ∧ c ≠ '\n' := by
  refine ⟨?_, ?_, ?_, ?_⟩
  · by_contra hs
    simp only [isspace, Bool.not_eq_false, Bool.or_eq_true, decide_eq_true_eq] at hs
    rcases hs with ((((hs | hs) | hs) | hs) | hs) | hs <;> (subst hs; revert h; decide)
  all_goals (intro hs; subst hs; revert h; decide)

theorem not_isspace_ne_newline {c : Char} (h : isspace c = false) : c ≠ '\n' := by
  intro hs; subst hs; revert h; decide

theorem takeWhile_append_stop {p : Char → Bool} (l : List Char) (x : Char) (r : List Char)
    (hl : ∀ c ∈ l, p c = true) (hx : p x = false) :
    (l ++ x :: r).takeWhile p = l ∧ (l ++ x :: r).dropWhile p = x :: r := by
  rw [List.takeWhile_append_of_pos hl, List.dropWhile_append_of_pos hl]
  simp [List.takeWhile_cons, List.dropWhile_cons, hx]

/-- The buffer `fgets` fills starts with any newline-free prefix of the file that fits it. -/
theorem fgets_go_prefix (p : List Char) (hp : ∀ c ∈ p, c ≠ '\n') :
    ∀ (n : Nat) (r : List Char), p.length ≤ n → ∃ r', (fgets_go n (p ++ r)).1 = p ++ r' := by
  induction p with
  | nil => intro n r _; exact ⟨_, rfl⟩
  | cons c p ih =>
    intro n r hn
    cases n with
    | zero => simp at hn
    | succ n =>
      obtain ⟨r', hr'⟩ := ih (fun x hx => hp x (List.mem_cons_of_mem c hx)) n r
        (by simpa using hn)
      refine ⟨r', ?_⟩
      simp [fgets_go, hp c (List.mem_cons_self c p), hr']

/-- A number below `2 ^ 31` is stored by `%d` as it is. -/
theorem long_to_int_strtol_val (v : Nat) (h : v < 2 ^ 31) :
    long_to_int (strtol_val false v) = (v : Int) := by
  unfold long_to_int strtol_val
  simp only [Bool.false_eq_true, if_false]
  omega

/-- C8 (counterexample). For the stat line `1234 (Web Content) S 1 1 1` the name extracted is
`Web`, while the text between the first `(` and the last `)` is `Web Content`; for
`77 (a)b) R 1 1 1` the name extracted is `a`, the text between the parentheses `a)b`. -/
theorem name_extraction_counterexample :
    (read_stat ⟨[], []⟩ "1234 (Web Content) S 1 1 1".toList 0 []).map
        (fun r => (r.1, r.2.1)) = some (1234, "Web".toList)
    ∧ name_between_parens "1234 (Web Content) S 1 1 1".toList = "Web Content".toList
    ∧ (read_stat ⟨[], []⟩ "77 (a)b) R 1 1 1".toList 0 []).map
        (fun r => (r.1, r.2.1)) = some (77, "a".toList)
    ∧ name_between_parens "77 (a)b) R 1 1 1".toList = "a)b".toList := by
  decide

/-- C8 (amended). For every stat line of the form `<pid> (<name>) <state> ...` whose pid is a
decimal number below `2 ^ 31`, whose name is not empty, has at most 253 characters (so that
the token `(<name>)` fits `comm[256]`) and contains neither white space nor `)`, and whose
part up to the state fits the 512-byte buffer, the pid and the process name that
`get_top_processes` stores are the pid and exactly that name, whatever the arrays held. -/
theorem name_extraction (st : ScanBuf) (pid_digits name rest name0 : List Char) (pid0 : Int)
    (hd0 : pid_digits ≠ []) (hd : ∀ c ∈ pid_digits, c.isDigit = true)
    (hpid : digits_val pid_digits < 2 ^ 31)
    (hn0 : name ≠ []) (hn : ∀ c ∈ name, isspace c = false ∧ c ≠ ')')
    (hnlen : name.length ≤ 253)
    (hlen : pid_digits.length + name.length + 4 ≤ 511) :
    (read_stat st (pid_digits ++ [' ', '('] ++ name ++ [')', ' '] ++ rest) pid0 name0).map
        (fun r => (r.1, r.2.1))
      = some ((digits_val pid_digits : Int), name) := by
  have hnl : ∀ c ∈ pid_digits ++ [' ', '('] ++ name ++ [')', ' '], c ≠ '\n' := by
    intro c hc
    simp only [List.mem_append, List.mem_cons, List.mem_singleton, List.not_mem_nil,
      or_false] at hc
    rcases hc with ((h | h | h) | h) | h | h
    · exact (isDigit_not_special (hd c h)).2.2.2
    · subst h; decide
    · subst h; decide
    · exact not_isspace_ne_newline (hn c h).1
    · subst h; decide
    · subst h; decide
  obtain ⟨r', hr'⟩ := fgets_go_prefix _ hnl 511 rest (by simp; omega)
  obtain ⟨d, ds, rfl⟩ := List.exists_cons_of_ne_nil hd0
  have hdd := isDigit_not_special (hd d (List.mem_cons_self d ds))
  have hne : ¬ ((d :: ds) ++ [' ', '('] ++ name ++ [')', ' '] ++ rest = []) := by simp
  -- the directive `%d`
  have e1 : scan_d ((d :: ds) ++ [' ', '('] ++ name ++ [')', ' '] ++ r')
      = some ((digits_val (d :: ds) : Int), ' ' :: ('(' :: name ++ [')'] ++ ' ' :: r')) := by
    have hsplit : (d :: ds) ++ [' ', '('] ++ name ++ [')', ' '] ++ r'
        = (d :: ds) ++ ' ' :: ('(' :: name ++ [')'] ++ ' ' :: r') := by simp
    obtain ⟨t1, t2⟩ := takeWhile_append_stop (d :: ds) ' '
      ('(' :: name ++ [')'] ++ ' ' :: r') hd (by decide)
    rw [hsplit]
    unfold scan_d
    have hdrop : ((d :: ds) ++ ' ' :: ('(' :: name ++ [')'] ++ ' ' :: r')).dropWhile isspace
        = (d :: ds) ++ ' ' :: ('(' :: name ++ [')'] ++ ' ' :: r') := by
      simp [List.dropWhile_cons, hdd.1]
    simp only [hdrop]
    have hh : ((d :: ds) ++ ' ' :: ('(' :: name ++ [')'] ++ ' ' :: r')).head? = some d := rfl
    simp only [hh, Option.some.injEq, hdd.2.1, hdd.2.2.1, or_self, if_false, t1, t2,
      decide_False, long_to_int_strtol_val _ hpid]
    simp
  -- the directive `%s`
  have e2 : scan_s (' ' :: ('(' :: name ++ [')'] ++ ' ' :: r'))
      = some ('(' :: name ++ [')'], ' ' :: r') := by
    have hall : ∀ c ∈ '(' :: name ++ [')'], (fun c => !isspace c) c = true := by
      intro c hc
      simp only [List.cons_append, List.mem_cons, List.mem_append, List.mem_singleton,
        List.not_mem_nil, or_false] at hc
      rcases hc with h | h | h
      · subst h; decide
      · simp [(hn c h).1]
      · subst h; decide
    obtain ⟨t1, t2⟩ := takeWhile_append_stop ('(' :: name ++ [')']) ' ' r' hall (by decide)
    unfold scan_s
    have hdrop : (' ' :: ('(' :: name ++ [')'] ++ ' ' :: r')).dropWhile isspace
        = '(' :: name ++ [')'] ++ ' ' :: r' := by
      rw [List.dropWhile_cons_of_pos (by decide)]
      simp only [List.cons_append]
      rw [List.dropWhile_cons_of_neg (by decide)]
    simp only [hdrop, t1, t2]
    simp
  -- the token fits `comm[256]`
  have hfit : ('(' :: name ++ [')']).length < 256 := by
    simp only [List.cons_append, List.length_cons, List.length_append, List.length_singleton,
      List.length_nil]
    omega
  -- the directive `%[^)]`
  have e3 : scan_name ('(' :: name ++ [')']) name0 = some name := by
    obtain ⟨t1, _⟩ := takeWhile_append_stop (p := fun c => decide (c ≠ ')')) name ')' []
      (fun c hc => by simpa using (hn c hc).2) (by decide)
    have hl : name.length < 256 := by omega
    simp only [List.cons_append, scan_name, t1, if_neg hn0, if_pos hl]
  unfold read_stat fgets
  simp only [if_neg hne, Nat.add_one_sub_one, hr', scan_stat, e1, e2, if_pos hfit, e3,
    Option.map_some']

/-- Witness for C8 (amended): the stat line `731 (systemd-logind) S 1 731`. -/
theorem name_extraction_witness :
    (read_stat ⟨[], []⟩ ("731".toList ++ [' ', '('] ++ "systemd-logind".toList ++ [')', ' ']
        ++ "S 1 731".toList) 0 []).map (fun r => (r.1, r.2.1))
      = some ((digits_val "731".toList : Int), "systemd-logind".toList) :=
  name_extraction ⟨[], []⟩ "731".toList "systemd-logind".toList "S 1 731".toList [] 0
    (by decide) (by decide) (by decide) (by decide) (by decide) (by decide) (by decide)

/-! ## Sensor names -/

theorem strstr_some_infix (needle : List Char) :
    ∀ (hay s : List Char), strstr hay needle = some s → needle <:+: hay := by
  intro hay
  induction hay with
  | nil =>
    intro s h
    by_cases hn : needle = []
    · subst hn; exact List.infix_refl _
    · simp [strstr, hn] at h
  | cons c cs ih =>
    intro s h
    unfold strstr at h
    by_cases hp : needle.isPrefixOf (c :: cs) = true
    · exact (List.isPrefixOf_iff_prefix.1 hp).isInfix
    · rw [if_neg hp] at h
      exact List.infix_cons (ih s h)

/-- When the only occurrence of `rep` in `p ++ rep` is the final one, `strstr` finds it. -/
theorem strstr_final (rep : List Char) (hrep : rep ≠ []) :
    ∀ p : List Char, ¬ rep <:+: p ++ rep.dropLast → strstr (p ++ rep) rep = some rep := by
  intro p
  induction p with
  | nil =>
    intro _
    obtain ⟨c, cs, rfl⟩ := List.exists_cons_of_ne_nil hrep
    have : (c :: cs).isPrefixOf (c :: cs) = true :=
      List.isPrefixOf_iff_prefix.2 (List.prefix_refl _)
    simp only [List.nil_append, strstr, this, if_true]
  | cons x p ih =>
    intro h
    have hnot : ¬ (rep.isPrefixOf (x :: (p ++ rep)) = true) := by
      intro hp
      have hpre : rep <+: (x :: p ++ rep.dropLast) ++ [rep.getLast hrep] := by
        have := List.isPrefixOf_iff_prefix.1 hp
        rwa [List.append_assoc, List.dropLast_append_getLast hrep]
      rcases List.prefix_concat_iff.1 hpre with heq | hpre'
      · have := congrArg List.length heq
        simp only [List.length_append, List.length_cons, List.length_dropLast,
          List.length_singleton] at this
        have hpos : 0 < rep.length := List.length_pos.2 hrep
        omega
      · exact h hpre'.isInfix
    have h' : ¬ rep <:+: p ++ rep.dropLast := fun hi => h (List.infix_cons hi)
    rw [List.cons_append, strstr, if_neg hnot]
    exact ih h'

/-- With a single, final occurrence of `rep`, `strreplace` replaces exactly that one. -/
theorem strreplace_final (rep w : List Char) (hrep : rep ≠ []) (p : List Char)
    (h : ¬ rep <:+: p ++ rep.dropLast) :
    strreplace (p ++ rep) rep w = some (p ++ w) := by
  have hs := strstr_final rep hrep p h
  have hnone : strstr [] rep = none := by simp [strstr, hrep]
  have hcount : count_rep rep ((p ++ rep).length + 1) (p ++ rep) = 1 := by
    have hlen : (p ++ rep).length = ((p ++ rep).length - 1) + 1 := by
      have : 0 < rep.length := List.length_pos.2 hrep
      simp only [List.length_append]; omega
    rw [count_rep, hs]
    simp only [List.drop_length]
    rw [hlen, count_rep, hnone]
  unfold strreplace
  rw [hcount, replace_loop, hs]
  simp [replace_loop]

/-- C10 (counterexample). The entry `temp1_input_raw` is selected as a temperature reading
although it does not end in `_input`; and for the selected entry `temp_input1_input` the
label name is `temp_label1_label`, both occurrences of `input` being replaced, not
`temp_input1_label`. -/
theorem sensor_label_counterexample :
    sensor_kind "temp1_input_raw".toList = some SensorKind.temp
    ∧ ¬ ("_input".toList <:+ "temp1_input_raw".toList)
    ∧ sensor_kind "temp_input1_input".toList = some SensorKind.temp
    ∧ label_name "temp_input1_input".toList = some "temp_label1_label".toList
    ∧ "temp_label1_label".toList ≠ "temp_input1_label".toList := by
  decide

/-- C10 (amended). For every directory entry name that `print_temperature_fan_speeds` selects
as a sensor reading, the name starts with `temp` or `fan` and contains `_input` (not
necessarily at its end); and when the name ends in `input` and has no other occurrence of
`input`, the label file name `strreplace(name, "input", "label")` is the entry name with that
final `input` replaced by `label`, so `<kind><index>_input` maps to `<kind><index>_label`. -/
theorem sensor_label_name (d_name : List Char) (k : SensorKind)
    (hsel : sensor_kind d_name = some k) :
    ("temp".toList <+: d_name ∨ "fan".toList <+: d_name)
    ∧ "_input".toList <:+: d_name
    ∧ (∀ p : List Char, d_name = p ++ "input".toList →
        ¬ "input".toList <:+: p ++ "inpu".toList →
        label_name d_name = some (p ++ "label".toList)) := by
  have hsome : ∀ hay, (strstr hay "_input".toList).isSome = true →
      "_input".toList <:+: hay := by
    intro hay h
    obtain ⟨s, hs⟩ := Option.isSome_iff_exists.1 h
    exact strstr_some_infix _ hay s hs
  refine ⟨?_, ?_, ?_⟩
  · unfold sensor_kind at hsel
    split at hsel
    · rename_i h; exact Or.inl (List.isPrefixOf_iff_prefix.1 h.1)
    · split at hsel
      · rename_i h; exact Or.inr (List.isPrefixOf_iff_prefix.1 h.1)
      · cases hsel
  · unfold sensor_kind at hsel
    split at hsel
    · rename_i h; exact hsome _ h.2
    · split at hsel
      · rename_i h; exact hsome _ h.2
      · cases hsel
  · intro p hp hocc
    subst hp
    exact strreplace_final "input".toList "label".toList (by decide) p hocc

/-- Witness for C10 (amended): `temp1_input` is selected and its label is `temp1_label`. -/
theorem sensor_label_name_witness :
    label_name "temp1_input".toList = some ("temp1_".toList ++ "label".toList) :=
  (sensor_label_name "temp1_input".toList SensorKind.temp (by decide)).2.2
    "temp1_".toList (by decide) (by decide)

end SystemMetrics
